import Mathlib

/-!
Shallow embedding of the FSDecomp transparent-decompression overlay
(`fsdecomp.go`): the data model (errors, file infos, raw handles, directory
entries, the wrapped store), the per-codec decompression adapters, the
composite closer, `DecompressFS.Open` and `DecompressFS.ReadDir`, together
with theorems settling the specification claims.

Byte streams are `List Nat`; Go errors are a flat record distinguishing the
`fs.ErrNotExist` class; the external codec libraries (gzip, bzip2, zstd, lz4)
are consumed as capabilities, exactly as the specification scopes them.
Open and the adapters are instrumented with the list of close events they
perform and the list of paths they hand to the underlying store, so that
"never consulted" and "no handle leaked" claims are statable.
-/

deriving instance DecidableEq for Except

namespace FSDecomp

/-- Go error model: `isNotExist` is whether `errors.Is(err, fs.ErrNotExist)`
holds; `code` distinguishes otherwise-equal error values (message, wrapped
chain), so that "returned verbatim" is meaningful. -/
structure Err where
  isNotExist : Bool
  code : Nat
deriving DecidableEq, Repr

/-- Go `fs.FileInfo` as observed through `Name`, `Size`, `Mode`, `ModTime`,
`IsDir`. -/
structure FileInfo where
  name : String
  size : Int
  mode : Nat
  modTime : Int
  isDir : Bool
deriving DecidableEq, Repr

/-- An opened `fs.File` handle from the underlying store: the byte stream it
yields, the result of `Stat`, the error its `Close` returns, and an `id`
identifying the handle in close-event traces. -/
structure RawFile where
  id : Nat
  content : List Nat
  statRes : Except Err FileInfo
  closeRes : Option Err
deriving DecidableEq, Repr

/-- Go `fs.DirEntry`: `Name`, `IsDir`, `Type` bits and the result of
`Info()` (which may fail). -/
structure DirEntry where
  name : String
  isDir : Bool
  typ : Nat
  info : Except Err FileInfo
deriving DecidableEq, Repr

/-- The underlying `fs.FS` capability: `Open` and `ReadDir` by path. -/
structure FS where
  Open : String → Except Err RawFile
  ReadDir : String → Except Err (List DirEntry)

/-- `DecompressFS` wraps the provided filesystem (embedded `fs.FS`). -/
structure DecompressFS where
  FS : FS

/-- Result of `gzip.NewReader`: a reader yielding the decoded bytes, whose
`Close` returns `closeRes`. -/
structure GzipReader where
  decoded : List Nat
  closeRes : Option Err
deriving DecidableEq, Repr

/-- External codec capabilities, per the specification's codec contract
(`Decode(byteSource) → DecodedStream`; internals out of scope).
`gzip.NewReader` and `zstd.NewReader` may fail on construction (malformed
header); the bzip2 and lz4 constructors are total, and their readers are
stateless wrappers exposing no separate release operation. -/
structure Codecs where
  gzipNewReader : List Nat → Except Err GzipReader
  bzip2NewReader : List Nat → List Nat
  zstdNewReader : List Nat → Except Err (List Nat)
  lz4NewReader : List Nat → List Nat

/-- An observable release event: closing the raw handle with the given id, or
releasing the gzip decoder's resources. -/
inductive CloseEvent where
  | rawClosed : Nat → CloseEvent
  | gzClosed : CloseEvent
deriving DecidableEq, Repr

/-- The `io.Closer` values this code builds: a raw file handle, a gzip
reader, or a `multiCloser` over two closers. -/
inductive Closer where
  | rawFile : RawFile → Closer
  | gzReader : GzipReader → Closer
  | multi : Closer → Closer → Closer
deriving DecidableEq, Repr

/-- Close semantics: the error returned and the release events performed, in
order. The `multi` case is `multiCloser.Close`: close `c1`, close `c2`,
return `err1` when non-nil, else `err2`. -/
def Closer.close : Closer → Option Err × List CloseEvent
  | .rawFile f => (f.closeRes, [.rawClosed f.id])
  | .gzReader g => (g.closeRes, [.gzClosed])
  | .multi c1 c2 =>
      let r1 := c1.close
      let r2 := c2.close
      (if (r1.1).isSome then r1.1 else r2.1, r1.2 ++ r2.2)

/-- Go `strings.HasSuffix`, computed over the character sequence: the last
`len(sfx)` characters of `s` equal `sfx`. -/
def HasSuffix (s sfx : String) : Bool :=
  decide (sfx.data.length ≤ s.data.length) &&
    s.data.drop (s.data.length - sfx.data.length) == sfx.data

/-- Go `strings.TrimSuffix`: drop the final `sfx` when present, else return
the string unchanged. -/
def TrimSuffix (s sfx : String) : String :=
  if HasSuffix s sfx then ⟨s.data.take (s.data.length - sfx.data.length)⟩ else s

/-- `fileInfoWrapper` wraps an `fs.FileInfo` to modify its name: the embedded
value plus the overriding `name`. -/
structure fileInfoWrapper where
  FileInfo : FSDecomp.FileInfo
  name : String
deriving DecidableEq, Repr

/-- The `fs.FileInfo` a caller observes through a `fileInfoWrapper`: `Name`
is overridden, every other accessor delegates to the embedded value. -/
def fileInfoWrapper.view (fiw : fileInfoWrapper) : FSDecomp.FileInfo :=
  { name := fiw.name
    size := fiw.FileInfo.size
    mode := fiw.FileInfo.mode
    modTime := fiw.FileInfo.modTime
    isDir := fiw.FileInfo.isDir }

/-- The `fs.DirEntry` a caller observes through a `fileInfoWrapper` entry:
`Name` is overridden, `IsDir` delegates to the embedded value, `Type` returns
the embedded `Mode()`, and `Info` returns the embedded info with nil error. -/
def fileInfoWrapper.toDirEntry (fiw : fileInfoWrapper) : DirEntry :=
  { name := fiw.name
    isDir := fiw.FileInfo.isDir
    typ := fiw.FileInfo.mode
    info := .ok fiw.FileInfo }

/-- `modifyFileInfo` builds a `fileInfoWrapper` over `info` carrying
`newName`; the caller observes it as an `fs.FileInfo`. -/
def modifyFileInfo (info : FileInfo) (newName : String) : FileInfo :=
  (fileInfoWrapper.mk info newName).view

/-- `decompressFile` implements `fs.File` for a decompressed reader. -/
structure decompressFile where
  reader : List Nat
  closer : Closer
  info : Option FileInfo
  originalFS : RawFile
deriving DecidableEq, Repr

/-- `decompressFile.Stat`: return the stored info when non-nil, else delegate
to the original file's `Stat`. -/
def decompressFile.Stat (df : decompressFile) : Except Err FileInfo :=
  match df.info with
  | some i => .ok i
  | none => df.originalFS.statRes

/-- `decompressFile.Read`: pull up to `n` bytes from the decoded stream. -/
def decompressFile.Read (df : decompressFile) (n : Nat) : List Nat × decompressFile :=
  (df.reader.take n, { df with reader := df.reader.drop n })

/-- Reading the returned stream to the end yields the decoded content. -/
def decompressFile.readToEnd (df : decompressFile) : List Nat :=
  df.reader

/-- `decompressFile.Close` delegates to the stored closer. -/
def decompressFile.Close (df : decompressFile) : Option Err × List CloseEvent :=
  df.closer.close

/-- `newGzipFile`: construct the gzip reader (closing `f` and propagating on
failure), fetch `f.Stat` (closing `f` and propagating on failure), strip
`.gz` from the stat name, and return the decompressed file whose closer is
`multiCloser{gzReader, f}`. -/
def newGzipFile (cs : Codecs) (f : RawFile) :
    Except Err decompressFile × List CloseEvent :=
  match cs.gzipNewReader f.content with
  | .error err => (.error err, [.rawClosed f.id])
  | .ok gzReader =>
    match f.statRes with
    | .error err => (.error err, [.rawClosed f.id])
    | .ok info =>
      let modifiedInfo := modifyFileInfo info (TrimSuffix info.name ".gz")
      (.ok { reader := gzReader.decoded
             closer := .multi (.gzReader gzReader) (.rawFile f)
             info := some modifiedInfo
             originalFS := f }, [])

/-- `newBzip2File`: the bzip2 reader construction is total; fetch `f.Stat`
(closing `f` and propagating on failure), strip `.bz2` from the stat name,
and return the decompressed file whose closer is `f` alone. -/
def newBzip2File (cs : Codecs) (f : RawFile) :
    Except Err decompressFile × List CloseEvent :=
  let bzReader := cs.bzip2NewReader f.content
  match f.statRes with
  | .error err => (.error err, [.rawClosed f.id])
  | .ok info =>
    let modifiedInfo := modifyFileInfo info (TrimSuffix info.name ".bz2")
    (.ok { reader := bzReader
           closer := .rawFile f
           info := some modifiedInfo
           originalFS := f }, [])

/-- `newZstdFile`: construct the zstd reader (closing `f` and propagating on
failure), fetch `f.Stat` (closing `f` and propagating on failure), strip
`.zst` from the stat name, and return the decompressed file whose closer is
`f` alone. -/
def newZstdFile (cs : Codecs) (f : RawFile) :
    Except Err decompressFile × List CloseEvent :=
  match cs.zstdNewReader f.content with
  | .error err => (.error err, [.rawClosed f.id])
  | .ok zstReader =>
    match f.statRes with
    | .error err => (.error err, [.rawClosed f.id])
    | .ok info =>
      let modifiedInfo := modifyFileInfo info (TrimSuffix info.name ".zst")
      (.ok { reader := zstReader
             closer := .rawFile f
             info := some modifiedInfo
             originalFS := f }, [])

/-- `newLz4File`: the lz4 reader construction is total; fetch `f.Stat`
(closing `f` and propagating on failure), strip `.lz4` from the stat name,
and return the decompressed file whose closer is `f` alone (the lz4 reader
needs no close). -/
def newLz4File (cs : Codecs) (f : RawFile) :
    Except Err decompressFile × List CloseEvent :=
  let lz4Reader := cs.lz4NewReader f.content
  match f.statRes with
  | .error err => (.error err, [.rawClosed f.id])
  | .ok info =>
    let modifiedInfo := modifyFileInfo info (TrimSuffix info.name ".lz4")
    (.ok { reader := lz4Reader
           closer := .rawFile f
           info := some modifiedInfo
           originalFS := f }, [])

/-- What `DecompressFS.Open` returns on success: the literal raw file
unmodified, or an adapted decompressed file. -/
inductive OpenedFile where
  | rawFile : RawFile → OpenedFile
  | decompressed : decompressFile → OpenedFile
deriving DecidableEq, Repr

/-- Result of `DecompressFS.Open`, instrumented with the close events the
call performed and the paths handed to the underlying `FS.Open`, in call
order: the source performs exactly these calls. -/
structure OpenResult where
  result : Except Err OpenedFile
  closed : List CloseEvent
  probed : List String
deriving DecidableEq, Repr

/-- `DecompressFS.Open`: try the literal path; on success return the raw file
unmodified. On an `fs.ErrNotExist` failure, try `.gz`, `.bz2`, `.zst`,
`.lz4` in that order, adapting the first success with its codec. Otherwise,
and when every attempt fails, return the original error. -/
def DecompressFS.Open (cs : Codecs) (dfs : DecompressFS) (name : String) :
    OpenResult :=
  match dfs.FS.Open name with
  | .ok file => ⟨.ok (.rawFile file), [], [name]⟩
  | .error err =>
    if err.isNotExist then
      match dfs.FS.Open (name ++ ".gz") with
      | .ok gzFile =>
        let r := newGzipFile cs gzFile
        ⟨r.1.map .decompressed, r.2, [name, name ++ ".gz"]⟩
      | .error _ =>
        match dfs.FS.Open (name ++ ".bz2") with
        | .ok bz2File =>
          let r := newBzip2File cs bz2File
          ⟨r.1.map .decompressed, r.2, [name, name ++ ".gz", name ++ ".bz2"]⟩
        | .error _ =>
          match dfs.FS.Open (name ++ ".zst") with
          | .ok zstFile =>
            let r := newZstdFile cs zstFile
            ⟨r.1.map .decompressed, r.2,
              [name, name ++ ".gz", name ++ ".bz2", name ++ ".zst"]⟩
          | .error _ =>
            match dfs.FS.Open (name ++ ".lz4") with
            | .ok lz4File =>
              let r := newLz4File cs lz4File
              ⟨r.1.map .decompressed, r.2,
                [name, name ++ ".gz", name ++ ".bz2", name ++ ".zst",
                 name ++ ".lz4"]⟩
            | .error _ =>
              ⟨.error err, [],
                [name, name ++ ".gz", name ++ ".bz2", name ++ ".zst",
                 name ++ ".lz4"]⟩
    else ⟨.error err, [], [name]⟩

/-- The suffix test of the `ReadDir` loop, exactly the source's condition. -/
def hasRecognizedSuffix (s : String) : Bool :=
  HasSuffix s ".gz" || HasSuffix s ".bz2" || HasSuffix s ".zst" || HasSuffix s ".lz4"

/-- The name rewriting of the `ReadDir` loop: `TrimSuffix` applied for
`.gz`, then `.bz2`, then `.zst`, then `.lz4`, in that order. -/
def trimAllSuffixes (s : String) : String :=
  TrimSuffix (TrimSuffix (TrimSuffix (TrimSuffix s ".gz") ".bz2") ".zst") ".lz4"

/-- The entry loop of `DecompressFS.ReadDir`: directories pass through;
for any other entry `Info()` is fetched (its failure aborts the listing);
entries with a recognized suffix are replaced by a `fileInfoWrapper` entry
carrying the rewritten name; other files pass through. -/
def readDirLoop : List DirEntry → Except Err (List DirEntry)
  | [] => .ok []
  | entry :: rest =>
    if entry.isDir then
      (readDirLoop rest).map fun es => entry :: es
    else
      match entry.info with
      | .error err => .error err
      | .ok info =>
        if hasRecognizedSuffix entry.name then
          (readDirLoop rest).map fun es =>
            (fileInfoWrapper.mk info (trimAllSuffixes entry.name)).toDirEntry :: es
        else
          (readDirLoop rest).map fun es => entry :: es

/-- `DecompressFS.ReadDir`: delegate to the underlying store (propagating its
error), then run the rewriting loop over the entries. -/
def DecompressFS.ReadDir (dfs : DecompressFS) (name : String) :
    Except Err (List DirEntry) :=
  match dfs.FS.ReadDir name with
  | .error err => .error err
  | .ok entries => readDirLoop entries

/-- The four codecs, in registry order. -/
inductive CodecKind where
  | gzip
  | bzip2
  | zstd
  | lz4
deriving DecidableEq, Repr

/-- The filename suffix bound to each codec. -/
def CodecKind.sfx : CodecKind → String
  | .gzip => ".gz"
  | .bzip2 => ".bz2"
  | .zstd => ".zst"
  | .lz4 => ".lz4"

/-- Position of each codec in the fixed probing order. -/
def CodecKind.idx : CodecKind → Nat
  | .gzip => 0
  | .bzip2 => 1
  | .zstd => 2
  | .lz4 => 3

/-- The fixed, ordered suffix table. -/
def codecSuffixes : List String :=
  [".gz", ".bz2", ".zst", ".lz4"]

/-- Dispatch to the adapter each `Open` branch calls for its codec. -/
def adaptFile (cs : Codecs) : CodecKind → RawFile →
    Except Err decompressFile × List CloseEvent
  | .gzip => newGzipFile cs
  | .bzip2 => newBzip2File cs
  | .zstd => newZstdFile cs
  | .lz4 => newLz4File cs

/-- The probes before a given point all fail, with the stated errors. -/
def probeFailsBefore (dfs : DecompressFS) (name : String) (errsE : String → Err) :
    List String → Prop
  | [] => True
  | s :: rest =>
      dfs.FS.Open (name ++ s) = .error (errsE s) ∧
        probeFailsBefore dfs name errsE rest

/-- The codec's constructor, applied to `src`, succeeds and its reader
yields `out`: `src` is an encoding of `out` under that codec. -/
def decodesTo (cs : Codecs) : CodecKind → List Nat → List Nat → Prop
  | .gzip, src, out => ∃ g, cs.gzipNewReader src = .ok g ∧ g.decoded = out
  | .bzip2, src, out => cs.bzip2NewReader src = out
  | .zstd, src, out => cs.zstdNewReader src = .ok out
  | .lz4, src, out => cs.lz4NewReader src = out

/-- The release events the decoder itself contributes to a composite close:
only the gzip reader holds resources with a separate release; the bzip2,
zstd and lz4 readers are consumed as stateless wrappers. -/
def decoderCloseEvents : CodecKind → List CloseEvent
  | .gzip => [.gzClosed]
  | .bzip2 => []
  | .zstd => []
  | .lz4 => []

/-!
Concrete fixtures used by the evaluation (witness) theorems.
-/

/-- Concrete codec capabilities: gzip appends a byte and its reader's close
fails, the others decode to the source bytes. -/
def csW : Codecs where
  gzipNewReader := fun src => .ok ⟨src ++ [4], some ⟨false, 11⟩⟩
  bzip2NewReader := fun src => src
  zstdNewReader := fun src => .ok src
  lz4NewReader := fun src => src

/-- Literal file served at path `g`. -/
def fLit : RawFile := ⟨9, [5, 5], .ok ⟨"g", 2, 420, 50, false⟩, none⟩

/-- Compressed variant served at `f.gz`; its own close fails. -/
def fW : RawFile := ⟨5, [1, 2, 3], .ok ⟨"f.gz", 10, 420, 77, false⟩, some ⟨false, 12⟩⟩

/-- Compressed variant served at `h.zst`. -/
def fZ : RawFile := ⟨3, [7, 8], .ok ⟨"h.zst", 2, 420, 60, false⟩, none⟩

/-- Compressed variant served at `b.gz` whose `Stat` fails. -/
def fBadStat : RawFile := ⟨6, [0], .error ⟨false, 22⟩, none⟩

/-- Directory entry carrying a recognized suffix. -/
def entW : DirEntry := ⟨"c.txt.gz", false, 420, .ok ⟨"c.txt.gz", 3, 420, 70, false⟩⟩

/-- Directory entry with no recognized suffix. -/
def entPlain : DirEntry := ⟨"plain.txt", false, 420, .ok ⟨"plain.txt", 1, 420, 71, false⟩⟩

/-- Subdirectory entry whose `Info` would fail if consulted. -/
def entDir : DirEntry := ⟨"sub", true, 999, .error ⟨false, 30⟩⟩

/-- Concrete wrapped store exercising every `Open` path: a literal hit at
`g`, a gzip variant at `f.gz`, a zstd variant at `h.zst` behind two failed
probes, a variant with failing `Stat` at `b.gz`, a non-not-found literal
fault at `p`, and a fully absent `q`. -/
def dfsW : DecompressFS :=
  ⟨⟨fun p =>
      if p = "g" then .ok fLit
      else if p = "f" then .error ⟨true, 7⟩
      else if p = "f.gz" then .ok fW
      else if p = "h" then .error ⟨true, 8⟩
      else if p = "h.gz" then .error ⟨true, 2⟩
      else if p = "h.bz2" then .error ⟨false, 3⟩
      else if p = "h.zst" then .ok fZ
      else if p = "b" then .error ⟨true, 6⟩
      else if p = "b.gz" then .ok fBadStat
      else if p = "p" then .error ⟨false, 5⟩
      else .error ⟨true, 1⟩,
    fun p =>
      if p = "." then .ok [entW, entPlain, entDir]
      else .error ⟨true, 0⟩⟩⟩

/-- The rewritten listing the concrete store's `ReadDir` produces: the
suffixed file is substituted by its wrapper entry, the plain file and the
subdirectory pass through. -/
def outW : List DirEntry :=
  [⟨"c.txt", false, 420, .ok ⟨"c.txt.gz", 3, 420, 70, false⟩⟩, entPlain, entDir]

/-- What the `ReadDir` loop does to one entry: directories and files without
a recognized suffix pass through, files with one are substituted by a
wrapper entry carrying the rewritten name over the fetched metadata. -/
def entryStep (entry out : DirEntry) : Prop :=
  (entry.isDir = true ∧ out = entry) ∨
  (entry.isDir = false ∧ ∃ info, entry.info = .ok info ∧
    ((hasRecognizedSuffix entry.name = true ∧
        out = (fileInfoWrapper.mk info (trimAllSuffixes entry.name)).toDirEntry) ∨
     (hasRecognizedSuffix entry.name = false ∧ out = entry)))

/-- File entry whose name carries two stacked recognized suffixes. -/
def entDouble : DirEntry := ⟨"a.bz2.gz", false, 420, .ok ⟨"a.bz2.gz", 5, 420, 99, false⟩⟩

/-- Store whose root listing holds only the double-suffixed entry. -/
def dfsC6 : DecompressFS :=
  ⟨⟨fun _ => .error ⟨true, 0⟩,
    fun p => if p = "." then .ok [entDouble] else .error ⟨true, 0⟩⟩⟩

/-- File entry with no recognized suffix whose `Info` fetch fails. -/
def entBadInfo : DirEntry := ⟨"plain.txt", false, 420, .error ⟨false, 3⟩⟩

/-- Store whose root listing holds only the failing-info entry. -/
def dfsC7 : DecompressFS :=
  ⟨⟨fun _ => .error ⟨true, 0⟩,
    fun p => if p = "." then .ok [entBadInfo] else .error ⟨true, 0⟩⟩⟩

/-!
Helper lemmas shared by the claim theorems.
-/

/-- After a not-found literal failure with the probes before `k` failing and
the probe at `k` succeeding, `Open` probes exactly up to `k` and hands the
file to `k`'s adapter. -/
lemma openResolve (cs : Codecs) (dfs : DecompressFS) (path : String)
    (k : CodecKind) (f : RawFile) (errL : Err) (errsE : String → Err)
    (hlit : dfs.FS.Open path = .error errL) (hnf : errL.isNotExist = true)
    (hbefore : probeFailsBefore dfs path errsE (codecSuffixes.take k.idx))
    (hk : dfs.FS.Open (path ++ k.sfx) = .ok f) :
    (DecompressFS.Open cs dfs path).probed
        = path :: (codecSuffixes.take (k.idx + 1)).map (fun s => path ++ s) ∧
    (DecompressFS.Open cs dfs path).result
        = (adaptFile cs k f).1.map .decompressed ∧
    (DecompressFS.Open cs dfs path).closed = (adaptFile cs k f).2 := by
  cases k with
  | gzip =>
    simp only [CodecKind.sfx] at hk
    simp [DecompressFS.Open, hlit, hnf, hk, adaptFile, codecSuffixes,
      CodecKind.idx]
  | bzip2 =>
    simp only [codecSuffixes, CodecKind.idx, List.take, probeFailsBefore]
      at hbefore
    obtain ⟨h1, -⟩ := hbefore
    simp only [CodecKind.sfx] at hk
    simp [DecompressFS.Open, hlit, hnf, h1, hk, adaptFile, codecSuffixes,
      CodecKind.idx]
  | zstd =>
    simp only [codecSuffixes, CodecKind.idx, List.take, probeFailsBefore]
      at hbefore
    obtain ⟨h1, h2, -⟩ := hbefore
    simp only [CodecKind.sfx] at hk
    simp [DecompressFS.Open, hlit, hnf, h1, h2, hk, adaptFile, codecSuffixes,
      CodecKind.idx]
  | lz4 =>
    simp only [codecSuffixes, CodecKind.idx, List.take, probeFailsBefore]
      at hbefore
    obtain ⟨h1, h2, h3, -⟩ := hbefore
    simp only [CodecKind.sfx] at hk
    simp [DecompressFS.Open, hlit, hnf, h1, h2, h3, hk, adaptFile,
      codecSuffixes, CodecKind.idx]

/-- A successful adaptation returns the decoded stream, the captured stripped
metadata and the codec's closer: `multiCloser{gzReader, f}` for gzip, the raw
handle alone otherwise. -/
lemma adaptFileOk (cs : Codecs) (k : CodecKind) (f : RawFile) (C : List Nat)
    (info : FileInfo) (hdec : decodesTo cs k f.content C)
    (hstat : f.statRes = .ok info) :
    ∃ cl : Closer,
      adaptFile cs k f =
        (.ok ⟨C, cl, some (modifyFileInfo info (TrimSuffix info.name k.sfx)), f⟩,
          []) ∧
      (k = .gzip → ∃ g, cs.gzipNewReader f.content = .ok g ∧
        cl = .multi (.gzReader g) (.rawFile f)) ∧
      (k ≠ .gzip → cl = .rawFile f) := by
  cases k with
  | gzip =>
    obtain ⟨g, hg, hgd⟩ := hdec
    refine ⟨.multi (.gzReader g) (.rawFile f), ?_,
      fun _ => ⟨g, hg, rfl⟩, fun h => absurd rfl h⟩
    simp [adaptFile, newGzipFile, hg, hstat, hgd, CodecKind.sfx]
  | bzip2 =>
    simp only [decodesTo] at hdec
    refine ⟨.rawFile f, ?_, fun h => absurd h (by decide), fun _ => rfl⟩
    simp [adaptFile, newBzip2File, hstat, hdec, CodecKind.sfx]
  | zstd =>
    simp only [decodesTo] at hdec
    refine ⟨.rawFile f, ?_, fun h => absurd h (by decide), fun _ => rfl⟩
    simp [adaptFile, newZstdFile, hstat, hdec, CodecKind.sfx]
  | lz4 =>
    simp only [decodesTo] at hdec
    refine ⟨.rawFile f, ?_, fun h => absurd h (by decide), fun _ => rfl⟩
    simp [adaptFile, newLz4File, hstat, hdec, CodecKind.sfx]

/-- A failing adaptation closes exactly the raw handle. -/
lemma adaptFileErrorClosed (cs : Codecs) (k : CodecKind) (f : RawFile)
    (e : Err) (hfail : (adaptFile cs k f).1 = .error e) :
    (adaptFile cs k f).2 = [.rawClosed f.id] := by
  cases k with
  | gzip =>
    rcases hg : cs.gzipNewReader f.content with e1 | g
    · simp [adaptFile, newGzipFile, hg]
    · rcases hst : f.statRes with e2 | i
      · simp [adaptFile, newGzipFile, hg, hst]
      · simp [adaptFile, newGzipFile, hg, hst] at hfail
  | bzip2 =>
    rcases hst : f.statRes with e2 | i
    · simp [adaptFile, newBzip2File, hst]
    · simp [adaptFile, newBzip2File, hst] at hfail
  | zstd =>
    rcases hz : cs.zstdNewReader f.content with e1 | d
    · simp [adaptFile, newZstdFile, hz]
    · rcases hst : f.statRes with e2 | i
      · simp [adaptFile, newZstdFile, hz, hst]
      · simp [adaptFile, newZstdFile, hz, hst] at hfail
  | lz4 =>
    rcases hst : f.statRes with e2 | i
    · simp [adaptFile, newLz4File, hst]
    · simp [adaptFile, newLz4File, hst] at hfail

/-- A successful run of the `ReadDir` loop relates input and output entries
pointwise by `entryStep`, in order. -/
lemma readDirLoop_forall2 (entries out : List DirEntry)
    (h : readDirLoop entries = .ok out) :
    List.Forall₂ entryStep entries out := by
  induction entries generalizing out with
  | nil =>
    simp only [readDirLoop, Except.ok.injEq] at h
    subst h
    exact List.Forall₂.nil
  | cons e rest ih =>
    simp only [readDirLoop] at h
    by_cases hd : e.isDir = true
    · rw [if_pos hd] at h
      rcases hr : readDirLoop rest with er | os
      · rw [hr] at h; simp [Except.map] at h
      · rw [hr] at h
        simp only [Except.map, Except.ok.injEq] at h
        subst h
        exact List.Forall₂.cons (Or.inl ⟨hd, rfl⟩) (ih os hr)
    · rw [if_neg hd] at h
      have hdf : e.isDir = false := by simpa using hd
      rcases hi : e.info with ei | info
      · rw [hi] at h; simp at h
      · rw [hi] at h
        dsimp only at h
        by_cases hs : hasRecognizedSuffix e.name = true
        · rw [if_pos hs] at h
          rcases hr : readDirLoop rest with er | os
          · rw [hr] at h; simp [Except.map] at h
          · rw [hr] at h
            simp only [Except.map, Except.ok.injEq] at h
            subst h
            exact List.Forall₂.cons
              (Or.inr ⟨hdf, info, hi, Or.inl ⟨hs, rfl⟩⟩) (ih os hr)
        · rw [if_neg hs] at h
          have hsf : hasRecognizedSuffix e.name = false := by simpa using hs
          rcases hr : readDirLoop rest with er | os
          · rw [hr] at h; simp [Except.map] at h
          · rw [hr] at h
            simp only [Except.map, Except.ok.injEq] at h
            subst h
            exact List.Forall₂.cons
              (Or.inr ⟨hdf, info, hi, Or.inr ⟨hsf, rfl⟩⟩) (ih os hr)

/-- The `ReadDir` loop succeeds when every non-directory entry's `Info`
fetch succeeds. -/
lemma readDirLoop_ok_of_info (entries : List DirEntry)
    (hinfo : ∀ e ∈ entries, e.isDir = false → ∃ i, e.info = .ok i) :
    ∃ out, readDirLoop entries = .ok out := by
  induction entries with
  | nil => exact ⟨[], rfl⟩
  | cons e rest ih =>
    obtain ⟨os, hos⟩ := ih fun x hx => hinfo x (List.mem_cons_of_mem _ hx)
    by_cases hd : e.isDir = true
    · exact ⟨e :: os, by simp [readDirLoop, hd, hos, Except.map]⟩
    · obtain ⟨i, hi⟩ :=
        hinfo e (List.mem_cons_self e rest) (by simpa using hd)
      by_cases hs : hasRecognizedSuffix e.name = true
      · exact ⟨(fileInfoWrapper.mk i (trimAllSuffixes e.name)).toDirEntry :: os,
          by simp [readDirLoop, hd, hi, hs, hos, Except.map]⟩
      · exact ⟨e :: os, by simp [readDirLoop, hd, hi, hs, hos, Except.map]⟩

/-!
Claim theorems.
-/

/-- C2: when the literal entry exists in the underlying store, `Open` returns
that literal entry's raw stream unmodified (no decoding, name unchanged), no
close event happens, and the only path handed to the underlying store is the
literal one — compressed variants are never consulted, whatever they hold. -/
theorem open_literal_priority (cs : Codecs) (dfs : DecompressFS) (path : String)
    (f : RawFile) (h : dfs.FS.Open path = .ok f) :
    DecompressFS.Open cs dfs path = ⟨.ok (.rawFile f), [], [path]⟩ := by
  simp [DecompressFS.Open, h]

/-- C2 witness: on the concrete store, opening the literal path `g` returns
the raw literal file untouched and probes only `g`. -/
theorem open_literal_priority_witness :
    DecompressFS.Open csW dfsW "g" = ⟨.ok (.rawFile fLit), [], ["g"]⟩ :=
  open_literal_priority csW dfsW "g" fLit (by decide)

/-- C4: if the literal open fails with an error that is not classified
not-found, `Open` returns that error at once and probes no suffixed variant;
if the literal open fails not-found and all four suffixed opens fail too,
`Open` returns the original literal-lookup error verbatim, discarding the
probing sub-errors. -/
theorem open_error_propagation (cs : Codecs) (dfs : DecompressFS) (path : String) :
    (∀ err : Err, dfs.FS.Open path = .error err → err.isNotExist = false →
      DecompressFS.Open cs dfs path = ⟨.error err, [], [path]⟩) ∧
    (∀ err e1 e2 e3 e4 : Err, dfs.FS.Open path = .error err →
      err.isNotExist = true →
      dfs.FS.Open (path ++ ".gz") = .error e1 →
      dfs.FS.Open (path ++ ".bz2") = .error e2 →
      dfs.FS.Open (path ++ ".zst") = .error e3 →
      dfs.FS.Open (path ++ ".lz4") = .error e4 →
      DecompressFS.Open cs dfs path =
        ⟨.error err, [],
          [path, path ++ ".gz", path ++ ".bz2", path ++ ".zst",
           path ++ ".lz4"]⟩) := by
  constructor
  · intro err h hnf
    simp [DecompressFS.Open, h, hnf]
  · intro err e1 e2 e3 e4 h hnf h1 h2 h3 h4
    simp [DecompressFS.Open, h, hnf, h1, h2, h3, h4]

/-- C4 witness: on the concrete store, the permission-style fault at `p` is
returned without probing, and the not-found error code 9 at `q` is returned
verbatim after all four probes fail. -/
theorem open_error_propagation_witness :
    DecompressFS.Open csW dfsW "p" = ⟨.error ⟨false, 5⟩, [], ["p"]⟩ ∧
    DecompressFS.Open csW dfsW "q" =
      ⟨.error ⟨true, 1⟩, [], ["q", "q.gz", "q.bz2", "q.zst", "q.lz4"]⟩ :=
  ⟨(open_error_propagation csW dfsW "p").1 ⟨false, 5⟩ (by decide) rfl,
   (open_error_propagation csW dfsW "q").2 ⟨true, 1⟩ ⟨true, 1⟩ ⟨true, 1⟩
     ⟨true, 1⟩ ⟨true, 1⟩ (by decide) rfl (by decide) (by decide) (by decide)
     (by decide)⟩

/-- C3: after a not-found literal failure, `Open` hands the underlying store
exactly the literal path followed by the suffixed paths in the fixed order
`.gz`, `.bz2`, `.zst`, `.lz4`, stopping at the first success, whose stream is
adapted with that suffix's codec; later suffixes are not tried. -/
theorem open_probe_order (cs : Codecs) (dfs : DecompressFS) (path : String)
    (k : CodecKind) (f : RawFile) (errL : Err) (errsE : String → Err)
    (hlit : dfs.FS.Open path = .error errL) (hnf : errL.isNotExist = true)
    (hbefore : probeFailsBefore dfs path errsE (codecSuffixes.take k.idx))
    (hk : dfs.FS.Open (path ++ k.sfx) = .ok f) :
    (DecompressFS.Open cs dfs path).probed
        = path :: (codecSuffixes.take (k.idx + 1)).map (fun s => path ++ s) ∧
    (DecompressFS.Open cs dfs path).result
        = (adaptFile cs k f).1.map .decompressed ∧
    (DecompressFS.Open cs dfs path).closed = (adaptFile cs k f).2 :=
  openResolve cs dfs path k f errL errsE hlit hnf hbefore hk

/-- C3 witness: on the concrete store, `h` resolves at the third probe
`h.zst` (after `h.gz` and `h.bz2` fail), the probe list stops there, and the
result is the zstd adaptation of the raw variant. -/
theorem open_probe_order_witness :
    (DecompressFS.Open csW dfsW "h").probed = ["h", "h.gz", "h.bz2", "h.zst"] ∧
    (DecompressFS.Open csW dfsW "h").result
        = (adaptFile csW .zstd fZ).1.map .decompressed ∧
    (DecompressFS.Open csW dfsW "h").closed = (adaptFile csW .zstd fZ).2 := by
  have h := open_probe_order csW dfsW "h" .zstd fZ ⟨true, 8⟩
    (fun s => if s = ".gz" then ⟨true, 2⟩ else ⟨false, 3⟩)
    (by decide) rfl (by refine ⟨by decide, by decide, trivial⟩) (by decide)
  simpa [codecSuffixes, CodecKind.idx] using h

/-- C1: with the literal path absent (not-found) and `path + sfx` holding an
encoding of the bytes `C` under the suffix's codec (earlier probes failing,
the variant's `Stat` succeeding), `Open` succeeds and reading the returned
stream to the end yields exactly `C`; this holds for each of the four
codecs. -/
theorem open_roundtrip (cs : Codecs) (dfs : DecompressFS) (path : String)
    (k : CodecKind) (C : List Nat) (f : RawFile) (info : FileInfo)
    (errL : Err) (errsE : String → Err)
    (hlit : dfs.FS.Open path = .error errL) (hnf : errL.isNotExist = true)
    (hbefore : probeFailsBefore dfs path errsE (codecSuffixes.take k.idx))
    (hk : dfs.FS.Open (path ++ k.sfx) = .ok f)
    (hdec : decodesTo cs k f.content C)
    (hstat : f.statRes = .ok info) :
    ∃ df : decompressFile,
      (DecompressFS.Open cs dfs path).result = .ok (.decompressed df) ∧
      df.readToEnd = C := by
  cases k with
  | gzip =>
    obtain ⟨g, hg, hgd⟩ := hdec
    simp only [CodecKind.sfx] at hk
    refine ⟨⟨g.decoded, .multi (.gzReader g) (.rawFile f),
      some (modifyFileInfo info (TrimSuffix info.name ".gz")), f⟩, ?_, ?_⟩
    · simp [DecompressFS.Open, hlit, hnf, hk, newGzipFile, hg, hstat, Except.map]
    · simpa [decompressFile.readToEnd] using hgd
  | bzip2 =>
    simp only [codecSuffixes, CodecKind.idx, List.take, probeFailsBefore]
      at hbefore
    obtain ⟨h1, -⟩ := hbefore
    simp only [decodesTo] at hdec
    simp only [CodecKind.sfx] at hk
    refine ⟨⟨cs.bzip2NewReader f.content, .rawFile f,
      some (modifyFileInfo info (TrimSuffix info.name ".bz2")), f⟩, ?_, ?_⟩
    · simp [DecompressFS.Open, hlit, hnf, h1, hk, newBzip2File, hstat, Except.map]
    · simpa [decompressFile.readToEnd] using hdec
  | zstd =>
    simp only [codecSuffixes, CodecKind.idx, List.take, probeFailsBefore]
      at hbefore
    obtain ⟨h1, h2, -⟩ := hbefore
    simp only [decodesTo] at hdec
    simp only [CodecKind.sfx] at hk
    refine ⟨⟨C, .rawFile f,
      some (modifyFileInfo info (TrimSuffix info.name ".zst")), f⟩, ?_, ?_⟩
    · simp [DecompressFS.Open, hlit, hnf, h1, h2, hk, newZstdFile, hdec, hstat, Except.map]
    · simp [decompressFile.readToEnd]
  | lz4 =>
    simp only [codecSuffixes, CodecKind.idx, List.take, probeFailsBefore]
      at hbefore
    obtain ⟨h1, h2, h3, -⟩ := hbefore
    simp only [decodesTo] at hdec
    simp only [CodecKind.sfx] at hk
    refine ⟨⟨cs.lz4NewReader f.content, .rawFile f,
      some (modifyFileInfo info (TrimSuffix info.name ".lz4")), f⟩, ?_, ?_⟩
    · simp [DecompressFS.Open, hlit, hnf, h1, h2, h3, hk, newLz4File, hstat, Except.map]
    · simpa [decompressFile.readToEnd] using hdec

/-- C1 witness: on the concrete store, `f` is absent but `f.gz` decodes to
`[1, 2, 3, 4]`, and opening `f` yields exactly those bytes. -/
theorem open_roundtrip_witness :
    ∃ df : decompressFile,
      (DecompressFS.Open csW dfsW "f").result = .ok (.decompressed df) ∧
      df.readToEnd = [1, 2, 3, 4] :=
  open_roundtrip csW dfsW "f" .gzip [1, 2, 3, 4] fW ⟨"f.gz", 10, 420, 77, false⟩
    ⟨true, 7⟩ (fun _ => ⟨true, 1⟩) (by decide) rfl trivial (by decide)
    ⟨⟨[1, 2, 3, 4], some ⟨false, 11⟩⟩, by decide, rfl⟩ (by decide)

/-- C8: for a compressed entry resolved by `Open` through suffix `k`, the
reported metadata agrees with the compressed underlying entry's `Stat` value
on size, mode, modification time and directory flag (in particular the size
is the compressed size), while the name is that value's name with the
codec's suffix stripped. -/
theorem open_metadata_frame (cs : Codecs) (dfs : DecompressFS) (path : String)
    (k : CodecKind) (C : List Nat) (f : RawFile) (info : FileInfo)
    (errL : Err) (errsE : String → Err)
    (hlit : dfs.FS.Open path = .error errL) (hnf : errL.isNotExist = true)
    (hbefore : probeFailsBefore dfs path errsE (codecSuffixes.take k.idx))
    (hk : dfs.FS.Open (path ++ k.sfx) = .ok f)
    (hdec : decodesTo cs k f.content C)
    (hstat : f.statRes = .ok info) :
    ∃ df m, (DecompressFS.Open cs dfs path).result = .ok (.decompressed df) ∧
      df.Stat = .ok m ∧
      m.size = info.size ∧ m.mode = info.mode ∧ m.modTime = info.modTime ∧
      m.isDir = info.isDir ∧ m.name = TrimSuffix info.name k.sfx := by
  obtain ⟨-, hres, -⟩ :=
    openResolve cs dfs path k f errL errsE hlit hnf hbefore hk
  obtain ⟨cl, hok, -, -⟩ := adaptFileOk cs k f C info hdec hstat
  refine ⟨⟨C, cl, some (modifyFileInfo info (TrimSuffix info.name k.sfx)), f⟩,
    modifyFileInfo info (TrimSuffix info.name k.sfx), ?_, ?_, ?_, ?_, ?_, ?_, ?_⟩
  · rw [hres, hok]; rfl
  · simp [decompressFile.Stat]
  all_goals simp [modifyFileInfo, fileInfoWrapper.view]

/-- C8 witness: the gzip-resolved open of `f` reports metadata copied from
the compressed entry `f.gz` (size 10, mode 420, modtime 77, regular file)
under the stripped name. -/
theorem open_metadata_frame_witness :
    ∃ df m, (DecompressFS.Open csW dfsW "f").result = .ok (.decompressed df) ∧
      df.Stat = .ok m ∧
      m.size = (10 : Int) ∧ m.mode = 420 ∧ m.modTime = (77 : Int) ∧
      m.isDir = false ∧ m.name = TrimSuffix "f.gz" ".gz" :=
  open_metadata_frame csW dfsW "f" .gzip [1, 2, 3, 4] fW
    ⟨"f.gz", 10, 420, 77, false⟩ ⟨true, 7⟩ (fun _ => ⟨true, 1⟩)
    (by decide) rfl trivial (by decide)
    ⟨⟨[1, 2, 3, 4], some ⟨false, 11⟩⟩, by decide, rfl⟩ (by decide)

/-- C9: if the probe at suffix `k` opens a raw file but its adaptation fails
(decoder construction or metadata fetch), `Open` closes the raw handle
exactly once and propagates the adapter's error. -/
theorem open_no_leak_on_adapter_failure (cs : Codecs) (dfs : DecompressFS)
    (path : String) (k : CodecKind) (f : RawFile) (errL e : Err)
    (errsE : String → Err)
    (hlit : dfs.FS.Open path = .error errL) (hnf : errL.isNotExist = true)
    (hbefore : probeFailsBefore dfs path errsE (codecSuffixes.take k.idx))
    (hk : dfs.FS.Open (path ++ k.sfx) = .ok f)
    (hfail : (adaptFile cs k f).1 = .error e) :
    (DecompressFS.Open cs dfs path).result = .error e ∧
    (DecompressFS.Open cs dfs path).closed = [.rawClosed f.id] := by
  obtain ⟨-, hres, hclosed⟩ :=
    openResolve cs dfs path k f errL errsE hlit hnf hbefore hk
  refine ⟨?_, ?_⟩
  · rw [hres, hfail]; rfl
  · rw [hclosed]; exact adaptFileErrorClosed cs k f e hfail

/-- C9 witness: opening `b` resolves to `b.gz`, whose `Stat` fails with error
code 22; `Open` returns that error and the trace shows the raw handle (id 6)
closed exactly once. -/
theorem open_no_leak_witness :
    (DecompressFS.Open csW dfsW "b").result = .error ⟨false, 22⟩ ∧
    (DecompressFS.Open csW dfsW "b").closed = [.rawClosed fBadStat.id] :=
  open_no_leak_on_adapter_failure csW dfsW "b" .gzip fBadStat ⟨true, 6⟩
    ⟨false, 22⟩ (fun _ => ⟨true, 1⟩) (by decide) rfl trivial (by decide)
    (by decide)

/-- C10: a suffix-probed `Open` captures the rewritten metadata once at open
time; `Stat` on the returned file always succeeds with that captured value,
and would still do so whatever the underlying stream's `Stat` later
returned. -/
theorem stat_eager_snapshot (cs : Codecs) (dfs : DecompressFS) (path : String)
    (k : CodecKind) (C : List Nat) (f : RawFile) (info : FileInfo)
    (errL : Err) (errsE : String → Err)
    (hlit : dfs.FS.Open path = .error errL) (hnf : errL.isNotExist = true)
    (hbefore : probeFailsBefore dfs path errsE (codecSuffixes.take k.idx))
    (hk : dfs.FS.Open (path ++ k.sfx) = .ok f)
    (hdec : decodesTo cs k f.content C)
    (hstat : f.statRes = .ok info) :
    ∃ df m, (DecompressFS.Open cs dfs path).result = .ok (.decompressed df) ∧
      df.info = some m ∧ df.Stat = .ok m ∧
      ∀ g : RawFile, decompressFile.Stat { df with originalFS := g } = .ok m := by
  obtain ⟨-, hres, -⟩ :=
    openResolve cs dfs path k f errL errsE hlit hnf hbefore hk
  obtain ⟨cl, hok, -, -⟩ := adaptFileOk cs k f C info hdec hstat
  refine ⟨⟨C, cl, some (modifyFileInfo info (TrimSuffix info.name k.sfx)), f⟩,
    modifyFileInfo info (TrimSuffix info.name k.sfx), ?_, rfl, rfl,
    fun g => rfl⟩
  rw [hres, hok]; rfl

/-- C10 witness: the gzip-resolved open of `f` stores the rewritten metadata
eagerly; `Stat` returns it even with the underlying handle replaced by one
whose `Stat` fails. -/
theorem stat_eager_snapshot_witness :
    ∃ df m, (DecompressFS.Open csW dfsW "f").result = .ok (.decompressed df) ∧
      df.info = some m ∧ df.Stat = .ok m ∧
      ∀ g : RawFile, decompressFile.Stat { df with originalFS := g } = .ok m :=
  stat_eager_snapshot csW dfsW "f" .gzip [1, 2, 3, 4] fW
    ⟨"f.gz", 10, 420, 77, false⟩ ⟨true, 7⟩ (fun _ => ⟨true, 1⟩)
    (by decide) rfl trivial (by decide)
    ⟨⟨[1, 2, 3, 4], some ⟨false, 11⟩⟩, by decide, rfl⟩ (by decide)

/-- C5: closing a suffix-probed `Open` result releases the decoder's
allocated resources (the gzip reader; the other decoders hold none) and the
raw underlying handle, exactly once each, regardless of which release fails;
in the gzip case the decoder-release error is the one reported when it
occurs, and the raw-handle close is still performed with its error
suppressed. -/
theorem close_composite (cs : Codecs) (dfs : DecompressFS) (path : String)
    (k : CodecKind) (C : List Nat) (f : RawFile) (info : FileInfo)
    (errL : Err) (errsE : String → Err)
    (hlit : dfs.FS.Open path = .error errL) (hnf : errL.isNotExist = true)
    (hbefore : probeFailsBefore dfs path errsE (codecSuffixes.take k.idx))
    (hk : dfs.FS.Open (path ++ k.sfx) = .ok f)
    (hdec : decodesTo cs k f.content C)
    (hstat : f.statRes = .ok info) :
    ∃ df, (DecompressFS.Open cs dfs path).result = .ok (.decompressed df) ∧
      df.Close.2 = decoderCloseEvents k ++ [.rawClosed f.id] ∧
      (∀ g, k = .gzip → cs.gzipNewReader f.content = .ok g →
        df.Close.1 = if g.closeRes.isSome then g.closeRes else f.closeRes) ∧
      (k ≠ .gzip → df.Close.1 = f.closeRes) := by
  obtain ⟨-, hres, -⟩ :=
    openResolve cs dfs path k f errL errsE hlit hnf hbefore hk
  obtain ⟨cl, hok, hgz, hngz⟩ := adaptFileOk cs k f C info hdec hstat
  refine ⟨⟨C, cl, some (modifyFileInfo info (TrimSuffix info.name k.sfx)), f⟩,
    ?_, ?_, ?_, ?_⟩
  · rw [hres, hok]; rfl
  · by_cases hkg : k = .gzip
    · obtain ⟨g, -, hcl⟩ := hgz hkg
      subst hkg hcl
      simp [decompressFile.Close, Closer.close, decoderCloseEvents]
    · rw [hngz hkg]
      cases k with
      | gzip => exact absurd rfl hkg
      | bzip2 => simp [decompressFile.Close, Closer.close, decoderCloseEvents]
      | zstd => simp [decompressFile.Close, Closer.close, decoderCloseEvents]
      | lz4 => simp [decompressFile.Close, Closer.close, decoderCloseEvents]
  · intro g hkg hg2
    obtain ⟨g0, hg0, hcl⟩ := hgz hkg
    have hgg : g = g0 := by
      have := hg0.symm.trans hg2
      exact (Except.ok.injEq .. ▸ this).symm ▸ rfl
    subst hgg hcl
    simp [decompressFile.Close, Closer.close]
  · intro hkg
    rw [hngz hkg]
    simp [decompressFile.Close, Closer.close]

/-- C5 witness: the gzip-resolved open of `f` closes the gzip reader and raw
handle 5 once each; with both closes failing (codes 11 and 12), the decoder's
error 11 is the one reported. -/
theorem close_composite_witness :
    ∃ df, (DecompressFS.Open csW dfsW "f").result = .ok (.decompressed df) ∧
      df.Close.2 = decoderCloseEvents .gzip ++ [.rawClosed fW.id] ∧
      (∀ g, CodecKind.gzip = .gzip → csW.gzipNewReader fW.content = .ok g →
        df.Close.1 = if g.closeRes.isSome then g.closeRes else fW.closeRes) ∧
      (CodecKind.gzip ≠ .gzip → df.Close.1 = fW.closeRes) :=
  close_composite csW dfsW "f" .gzip [1, 2, 3, 4] fW
    ⟨"f.gz", 10, 420, 77, false⟩ ⟨true, 7⟩ (fun _ => ⟨true, 1⟩)
    (by decide) rfl trivial (by decide)
    ⟨⟨[1, 2, 3, 4], some ⟨false, 11⟩⟩, by decide, rfl⟩ (by decide)

/-- C6 counterexample: the listing holds the single file entry `a.bz2.gz`,
whose recognized suffix is `.gz`; the claim demands the rewritten name
`a.bz2`, but `ReadDir` produces `a`, because the `TrimSuffix` chain strips
`.gz` and then also strips the newly exposed `.bz2`. -/
theorem readdir_single_strip_counterexample :
    (DecompressFS.ReadDir dfsC6 ".").map (List.map DirEntry.name) = .ok ["a"] ∧
    TrimSuffix entDouble.name ".gz" = "a.bz2" ∧
    ("a" : String) ≠ "a.bz2" :=
  ⟨by decide, by decide, by decide⟩

/-- C6 (amended): in a successful listing, every file entry whose name ends
with a recognized suffix is substituted by a rewritten entry whose name is
the original name with the `TrimSuffix` chain for `.gz`, `.bz2`, `.zst`,
`.lz4` applied in that order (one suffix stripped, and a second one when the
first strip exposes a later-listed suffix), and which preserves the
directory flag, mode and modification time of the entry's fetched
metadata. -/
theorem readdir_rewrites_entry (dfs : DecompressFS) (path : String)
    (entries out : List DirEntry) (i : Nat) (info : FileInfo)
    (hrd : dfs.FS.ReadDir path = .ok entries)
    (hout : DecompressFS.ReadDir dfs path = .ok out)
    (hi : i < entries.length)
    (hdir : (entries.get ⟨i, hi⟩).isDir = false)
    (hsfx : hasRecognizedSuffix (entries.get ⟨i, hi⟩).name = true)
    (hinfo : (entries.get ⟨i, hi⟩).info = .ok info) :
    ∃ hlen : i < out.length,
      out.get ⟨i, hlen⟩ =
        (fileInfoWrapper.mk info
          (trimAllSuffixes (entries.get ⟨i, hi⟩).name)).toDirEntry ∧
      (out.get ⟨i, hlen⟩).name = trimAllSuffixes (entries.get ⟨i, hi⟩).name ∧
      (out.get ⟨i, hlen⟩).isDir = info.isDir ∧
      (out.get ⟨i, hlen⟩).typ = info.mode ∧
      (out.get ⟨i, hlen⟩).info = .ok info ∧
      (fileInfoWrapper.mk info
        (trimAllSuffixes (entries.get ⟨i, hi⟩).name)).view.mode = info.mode ∧
      (fileInfoWrapper.mk info
        (trimAllSuffixes (entries.get ⟨i, hi⟩).name)).view.modTime
          = info.modTime := by
  have hloop : readDirLoop entries = .ok out := by
    have h0 := hout
    simp only [DecompressFS.ReadDir, hrd] at h0
    exact h0
  have hF := readDirLoop_forall2 entries out hloop
  obtain ⟨hlen, hget⟩ := List.forall₂_iff_get.mp hF
  have hstep := hget i hi (hlen ▸ hi)
  refine ⟨hlen ▸ hi, ?_, ?_⟩
  · rcases hstep with ⟨hdt, -⟩ | ⟨-, info0, hi0, ⟨-, hw⟩ | ⟨hsf, -⟩⟩
    · rw [hdir] at hdt; cases hdt
    · have : info0 = info := by
        rw [hinfo] at hi0
        exact (Except.ok.inj hi0.symm)
      rw [hw, this]
    · rw [hsfx] at hsf; cases hsf
  · rcases hstep with ⟨hdt, -⟩ | ⟨-, info0, hi0, ⟨-, hw⟩ | ⟨hsf, -⟩⟩
    · rw [hdir] at hdt; cases hdt
    · have heq : info0 = info := by
        rw [hinfo] at hi0
        exact (Except.ok.inj hi0.symm)
      rw [hw, heq]
      simp [fileInfoWrapper.toDirEntry, fileInfoWrapper.view]
    · rw [hsfx] at hsf; cases hsf

/-- C6 witness: on the concrete store's root listing, the entry `c.txt.gz`
at position 0 is substituted by the wrapper entry named `c.txt` preserving
its metadata. -/
theorem readdir_rewrites_entry_witness :
    ∃ hlen : 0 < outW.length,
      outW.get ⟨0, hlen⟩ =
        (fileInfoWrapper.mk ⟨"c.txt.gz", 3, 420, 70, false⟩
          (trimAllSuffixes ([entW, entPlain, entDir].get ⟨0, by decide⟩).name)).toDirEntry ∧
      (outW.get ⟨0, hlen⟩).name
          = trimAllSuffixes ([entW, entPlain, entDir].get ⟨0, by decide⟩).name ∧
      (outW.get ⟨0, hlen⟩).isDir = false ∧
      (outW.get ⟨0, hlen⟩).typ = 420 ∧
      (outW.get ⟨0, hlen⟩).info = .ok ⟨"c.txt.gz", 3, 420, 70, false⟩ ∧
      (fileInfoWrapper.mk ⟨"c.txt.gz", 3, 420, 70, false⟩
        (trimAllSuffixes ([entW, entPlain, entDir].get ⟨0, by decide⟩).name)).view.mode
          = 420 ∧
      (fileInfoWrapper.mk ⟨"c.txt.gz", 3, 420, 70, false⟩
        (trimAllSuffixes ([entW, entPlain, entDir].get ⟨0, by decide⟩).name)).view.modTime
          = (70 : Int) :=
  readdir_rewrites_entry dfsW "." [entW, entPlain, entDir] outW 0
    ⟨"c.txt.gz", 3, 420, 70, false⟩ (by decide) (by decide) (by decide)
    (by decide) (by decide) (by decide)

/-- C7 counterexample: the underlying store's root listing succeeds with a
single file entry carrying no recognized suffix, yet the overlay's `ReadDir`
fails, because the loop fetches `Info()` for every non-directory entry and
this entry's fetch fails. -/
theorem readdir_passthrough_counterexample :
    dfsC7.FS.ReadDir "." = .ok [entBadInfo] ∧
    hasRecognizedSuffix entBadInfo.name = false ∧
    entBadInfo.isDir = false ∧
    DecompressFS.ReadDir dfsC7 "." = .error ⟨false, 3⟩ :=
  ⟨by decide, by decide, by decide, by decide⟩

/-- C7 (amended): when the underlying store's `ReadDir` succeeds and every
non-directory entry's `Info` fetch succeeds, the overlay's `ReadDir`
succeeds with one output entry per input entry in the store's order, and
every directory entry (whose metadata is never consulted) and every file
entry without a recognized suffix passes through unmodified; the loop does,
however, fetch metadata for every non-directory entry, so an `Info` failure
fails the listing even when no name carries a suffix. -/
theorem readdir_passthrough (dfs : DecompressFS) (path : String)
    (entries : List DirEntry)
    (hrd : dfs.FS.ReadDir path = .ok entries)
    (hinfo : ∀ e ∈ entries, e.isDir = false → ∃ i, e.info = .ok i) :
    ∃ out, DecompressFS.ReadDir dfs path = .ok out ∧
      out.length = entries.length ∧
      List.Forall₂
        (fun e o => (e.isDir = true ∨ hasRecognizedSuffix e.name = false) → o = e)
        entries out := by
  obtain ⟨out, hout⟩ := readDirLoop_ok_of_info entries hinfo
  have hF := readDirLoop_forall2 entries out hout
  refine ⟨out, by simp [DecompressFS.ReadDir, hrd, hout], hF.length_eq.symm, ?_⟩
  refine hF.imp ?_
  intro e o hstep hcond
  rcases hstep with ⟨-, rfl⟩ | ⟨hdf, info, -, ⟨hrt, -⟩ | ⟨-, rfl⟩⟩
  · rfl
  · rcases hcond with hdt | hrf
    · rw [hdf] at hdt; cases hdt
    · rw [hrt] at hrf; cases hrf
  · rfl

/-- C7 witness: on the concrete store's root listing, the overlay succeeds,
keeps the three entries in order, and passes the plain file and the
subdirectory through unchanged (the subdirectory's failing `Info` is never
consulted). -/
theorem readdir_passthrough_witness :
    ∃ out, DecompressFS.ReadDir dfsW "." = .ok out ∧
      out.length = [entW, entPlain, entDir].length ∧
      List.Forall₂
        (fun e o => (e.isDir = true ∨ hasRecognizedSuffix e.name = false) → o = e)
        [entW, entPlain, entDir] out :=
  readdir_passthrough dfsW "." [entW, entPlain, entDir] (by decide)
    (by
      intro e he hdf
      simp only [List.mem_cons, List.not_mem_nil, or_false] at he
      rcases he with rfl | rfl | rfl
      · exact ⟨⟨"c.txt.gz", 3, 420, 70, false⟩, rfl⟩
      · exact ⟨⟨"plain.txt", 1, 420, 71, false⟩, rfl⟩
      · exact absurd hdf (by decide))

end FSDecomp
